import Mathlib

/-!
Verification development for the hound trading-agent repository.

The definitions below are a shallow embedding of the repository's core logic:

* `src/backend/utils/types.ts` — the data model (holdings, portfolio, trades,
  analyses, decisions, agent states, events);
* `src/backend/services/portfolio.ts` — the in-memory `PortfolioService`
  (`executeTrade`, `checkRisk`, `getTradeHistory`, accessors);
* `src/backend/services/redis.ts` — the Redis-backed trade store
  (`addTrade` via LPUSH/LTRIM, `getTrades` via LRANGE);
* `src/backend/agent/orchestrator.ts` — the backend orchestrator's pure cycle
  logic (`monitorNews` selection, `analyzeNews` gate, `makeDecision`,
  `checkRisk`, `executeTrade`, the run-loop error handler, `stop`,
  `emitEvent`/`getEvents`);
* `src/unnamed` (tavily service) — `filterRelevantNews`.

JavaScript numbers are embedded as `ℚ` (money, prices, scores) and `ℤ`
(millisecond timestamps).  External collaborators (Tavily search, Gemini,
XRPL settlement) appear as oracle parameters: the embedded functions take the
collaborator's response as an argument.
-/

namespace Hound

/-- Action kind as it flows through the system at runtime.  TypeScript narrows
some occurrences to `'buy' | 'sell'`, but the runtime value originates from the
Gemini analysis (`'buy' | 'sell' | 'hold'`) and is only ever inspected with
`=== 'buy'` / `=== 'sell'` chains, which we mirror by matching on `buy`/`sell`
and letting `hold` fall through to the residual branch. -/
inductive ActionKind where
  | buy
  | sell
  | hold
deriving DecidableEq, Repr

/-- Sentiment of a Gemini analysis (`GeminiAnalysis.sentiment`). -/
inductive Sentiment where
  | bullish
  | bearish
  | neutral
deriving DecidableEq, Repr

/-- `AgentState` from `backend/utils/types.ts`. -/
inductive AgentState where
  | IDLE
  | MONITORING
  | ANALYZING
  | DECIDING
  | RISK_CHECK
  | EXECUTING
  | EXPLAINING
deriving DecidableEq, Repr

/-- `Holding` from `backend/utils/types.ts`: `{ ticker, shares, avg_price }`. -/
structure Holding where
  ticker : String
  shares : ℚ
  avg_price : ℚ
deriving DecidableEq, Repr

/-- `Portfolio` from `backend/utils/types.ts` (risk tolerance plays no role in
the verified logic and is carried as a plain string). -/
structure Portfolio where
  holdings : List Holding
  cash_balance : ℚ
  risk_tolerance : String
deriving DecidableEq, Repr

/-- `Trade` from `backend/utils/types.ts`.  `timestamp` is epoch milliseconds. -/
structure Trade where
  ticker : String
  action : ActionKind
  shares : ℚ
  price : ℚ
  timestamp : ℤ
deriving DecidableEq, Repr

/-- `NewsArticle` from `backend/utils/types.ts`. -/
structure NewsArticle where
  title : String
  url : String
  content : String
  score : Option ℚ
deriving DecidableEq, Repr

/-- `GeminiAnalysis` from `backend/utils/types.ts`. -/
structure GeminiAnalysis where
  impact_score : ℚ
  sentiment : Sentiment
  action : ActionKind
  confidence : ℚ
  amount_usd : ℚ
  reasoning : String
deriving DecidableEq, Repr

/-- The orchestrator's `currentAnalysis`: a `GeminiAnalysis` together with the
affected ticker and the article it came from. -/
structure AnalysisCtx where
  analysis : GeminiAnalysis
  ticker : String
  news : NewsArticle
deriving DecidableEq, Repr

/-- `TradingDecision` from `backend/utils/types.ts`.  `shares` is an integer
because `makeDecision` computes it with `Math.floor`. -/
structure TradingDecision where
  action : ActionKind
  ticker : String
  shares : ℤ
  amount_usd : ℚ
  reasoning : String
deriving DecidableEq, Repr

/-- `RiskCheckResult` from `backend/utils/types.ts`. -/
structure RiskCheckResult where
  sufficient_balance : Bool
  position_limit : Bool
  daily_trade_limit : Bool
  passed : Bool
deriving DecidableEq, Repr

/-- `24 * 60 * 60 * 1000` — the trailing-24-hour window used by the risk checks. -/
def millisPerDay : ℤ := 24 * 60 * 60 * 1000

/-- The fixed reference per-share price (`const mockPrice = 100`) used by
`makeDecision` and `executeTrade` in both orchestrator variants. -/
def mockPrice : ℚ := 100

/-! ## PortfolioService (`src/backend/services/portfolio.ts`) -/

/-- `PortfolioService.getHolding`: first holding whose ticker matches. -/
def getHolding (p : Portfolio) (ticker : String) : Option Holding :=
  p.holdings.find? (fun h => h.ticker == ticker)

/-- The `reduce((sum, h) => sum + h.shares * h.avg_price, 0)` accumulation used
by `getTotalValue` and by the backend orchestrator's risk check. -/
def holdingsValue (hs : List Holding) : ℚ :=
  hs.foldl (fun sum h => sum + h.shares * h.avg_price) 0

/-- `PortfolioService.getTotalValue`: holdings value plus cash. -/
def getTotalValue (p : Portfolio) : ℚ :=
  holdingsValue p.holdings + p.cash_balance

/-- `PortfolioService.getExposure`: percentage of total value held in `ticker`
(`0` when the holding is absent or total value is not positive). -/
def getExposure (p : Portfolio) (ticker : String) : ℚ :=
  match getHolding p ticker with
  | none => 0
  | some h =>
    let holdingValue := h.shares * h.avg_price
    let totalValue := getTotalValue p
    if 0 < totalValue then holdingValue / totalValue * 100 else 0

/-- `PortfolioService.canAffordTrade`: `cash_balance >= amount`. -/
def canAffordTrade (p : Portfolio) (amount : ℚ) : Bool :=
  decide (amount ≤ p.cash_balance)

/-- In-memory state of a `PortfolioService` instance: the portfolio plus the
append-only `tradeHistory` array. -/
structure SvcState where
  portfolio : Portfolio
  tradeHistory : List Trade
deriving DecidableEq, Repr

/-- Helper mirroring JavaScript's in-place mutation of the object returned by
`getHolding`: apply `f` to the first holding whose ticker matches. -/
def updFirstHolding : List Holding → String → (Holding → Holding) → List Holding
  | [], _, _ => []
  | h :: rest, ticker, f =>
    if h.ticker == ticker then f h :: rest
    else h :: updFirstHolding rest ticker f

/-- `PortfolioService.executeTrade(ticker, action, shares, price)`.

Mirrors the source line by line: `amount = shares * price`; a buy is rejected
(`false`, no mutation) unless `canAffordTrade(amount)`, then cash is debited
and the holding upserted with the weighted-average cost basis; a sell is
rejected unless the holding exists with at least `shares` shares, then cash is
credited, the holding's share count reduced (avg price untouched) and the
holding removed when its shares hit exactly zero.  Every successful call
appends a `Trade` record stamped `now`. -/
def svcExecuteTrade (s : SvcState) (ticker : String) (action : ActionKind)
    (shares price : ℚ) (now : ℤ) : SvcState × Bool :=
  let p := s.portfolio
  let holding := getHolding p ticker
  let amount := shares * price
  let record := fun (p1 : Portfolio) =>
    ({ portfolio := p1,
       tradeHistory := s.tradeHistory ++ [⟨ticker, action, shares, price, now⟩] }, true)
  match action with
  | .buy =>
    if canAffordTrade p amount then
      let holdings1 :=
        match holding with
        | some _ =>
          updFirstHolding p.holdings ticker (fun h =>
            { h with
              shares := h.shares + shares,
              avg_price := (h.shares * h.avg_price + amount) / (h.shares + shares) })
        | none => p.holdings ++ [⟨ticker, shares, price⟩]
      record { p with holdings := holdings1, cash_balance := p.cash_balance - amount }
    else (s, false)
  | .sell =>
    match holding with
    | none => (s, false)
    | some h0 =>
      if h0.shares < shares then (s, false)
      else
        let holdings1 := updFirstHolding p.holdings ticker
          (fun h => { h with shares := h.shares - shares })
        let holdings2 :=
          if h0.shares - shares == 0 then holdings1.filter (fun h => h.ticker != ticker)
          else holdings1
        record { p with holdings := holdings2, cash_balance := p.cash_balance + amount }
  | .hold => record p

/-- `PortfolioService.checkRisk(action, ticker, amountUSD)` evaluated at clock
time `now`.  The three sub-results start `true` and the two buy-only checks are
assigned inside `if (action === 'buy')`, exactly as in the source. -/
def svcCheckRisk (s : SvcState) (action : ActionKind) (ticker : String)
    (amountUSD : ℚ) (now : ℤ) : RiskCheckResult :=
  let p := s.portfolio
  let sufficient :=
    match action with
    | .buy => canAffordTrade p amountUSD
    | _ => true
  let posLimit :=
    match action with
    | .buy =>
      let currentExposure := getExposure p ticker
      let totalValue := getTotalValue p
      let newExposure :=
        if 0 < totalValue then currentExposure + amountUSD / totalValue * 100
        else amountUSD / (p.cash_balance + amountUSD) * 100
      decide (newExposure ≤ 30)
    | _ => true
  let todayTrades := s.tradeHistory.filter (fun t => decide (now - millisPerDay < t.timestamp))
  let daily := decide (todayTrades.length < 3)
  { sufficient_balance := sufficient
    position_limit := posLimit
    daily_trade_limit := daily
    passed := sufficient && posLimit && daily }

/-- `PortfolioService.getTradeHistory(limit?)`: `slice(-limit)` when `limit` is
truthy (a JavaScript `0` is falsy and returns the whole copied array). -/
def svcGetTradeHistory (s : SvcState) (limit : Option ℕ) : List Trade :=
  match limit with
  | some l =>
    if l = 0 then s.tradeHistory
    else s.tradeHistory.drop (s.tradeHistory.length - l)
  | none => s.tradeHistory

/-- Fold a list of trade requests through `svcExecuteTrade` (a failed request
leaves the service state unchanged, as the source returns `false` before any
mutation). -/
def svcExecMany (s : SvcState) : List (String × ActionKind × ℚ × ℚ × ℤ) → SvcState
  | [] => s
  | (ticker, action, shares, price, now) :: rest =>
    svcExecMany (svcExecuteTrade s ticker action shares price now).1 rest

/-! ## Redis trade store (`src/backend/services/redis.ts`) -/

/-- Redis `LRANGE key start stop` on a Lean list (head = most recently pushed):
negative indices count from the end, the stop index is clamped to the last
element, and an empty range yields `[]`. -/
def lrange {α : Type} (l : List α) (start stop : ℤ) : List α :=
  let n : ℤ := l.length
  let s := if start < 0 then max (n + start) 0 else start
  let e0 := if stop < 0 then n + stop else stop
  let e := min e0 (n - 1)
  if s > e then [] else (l.drop s.toNat).take (e - s + 1).toNat

/-- `redis.addTrade`: stamp the trade with `Date.now()`, `LPUSH` it, and
`LTRIM 0 999` (keep the 1000 most recent). -/
def redisAddTrade (store : List Trade) (t : Trade) (now : ℤ) : List Trade :=
  (({ t with timestamp := now } : Trade) :: store).take 1000

/-- `redis.getTrades(email, limit)`: `LRANGE trades 0 (limit - 1)`. -/
def redisGetTrades (store : List Trade) (limit : ℕ) : List Trade :=
  lrange store 0 ((limit : ℤ) - 1)

/-! ## Backend orchestrator cycle logic (`src/backend/agent/orchestrator.ts`) -/

/-- `makeDecision` (DECIDING): `shares = Math.floor(amount_usd / mockPrice)`;
action, ticker, amount and reasoning are carried over from the analysis. -/
def makeDecision (ctx : AnalysisCtx) : TradingDecision :=
  { action := ctx.analysis.action
    ticker := ctx.ticker
    shares := ⌊ctx.analysis.amount_usd / mockPrice⌋
    amount_usd := ctx.analysis.amount_usd
    reasoning := ctx.analysis.reasoning }

/-- The backend orchestrator's `checkRisk` body (RISK_CHECK): the same three
gates as `PortfolioService.checkRisk`, but the daily count is taken over
`redis.getTrades(email, 100)` and the projected exposure is computed directly
as `(currentHoldingValue + amount_usd) / totalValue * 100`. -/
def backendCheckRisk (p : Portfolio) (store : List Trade) (now : ℤ)
    (action : ActionKind) (ticker : String) (amount_usd : ℚ) : RiskCheckResult :=
  let sufficient :=
    match action with
    | .buy => decide (amount_usd ≤ p.cash_balance)
    | _ => true
  let posLimit :=
    match action with
    | .buy =>
      let currentHoldingValue :=
        match getHolding p ticker with
        | some h => h.shares * h.avg_price
        | none => 0
      let totalValue := holdingsValue p.holdings + p.cash_balance
      let newExposure :=
        if 0 < totalValue then (currentHoldingValue + amount_usd) / totalValue * 100
        else amount_usd / (p.cash_balance + amount_usd) * 100
      decide (newExposure ≤ 30)
    | _ => true
  let trades := redisGetTrades store 100
  let todayTrades := trades.filter (fun t => decide (now - millisPerDay < t.timestamp))
  let daily := decide (todayTrades.length < 3)
  { sufficient_balance := sufficient
    position_limit := posLimit
    daily_trade_limit := daily
    passed := sufficient && posLimit && daily }

/-- The backend orchestrator's `executeTrade` body (EXECUTING), after a
successful XRPL settlement: update cash by `amount_usd`, upsert (buy) or
reduce/remove (sell) the holding via the Redis holding operations, and record
the trade at `mockPrice`.  `none` models the thrown `Insufficient shares`
error (caught by the caller, which aborts to MONITORING with no mutation). -/
def backendExecuteTrade (p : Portfolio) (store : List Trade) (now : ℤ)
    (d : TradingDecision) : Option (Portfolio × List Trade) :=
  let record := fun (p1 : Portfolio) =>
    some (p1, redisAddTrade store ⟨d.ticker, d.action, (d.shares : ℚ), mockPrice, 0⟩ now)
  match d.action with
  | .buy =>
    let holdings1 :=
      match getHolding p d.ticker with
      | some h =>
        let totalShares := h.shares + (d.shares : ℚ)
        let totalCost := h.shares * h.avg_price + d.amount_usd
        updFirstHolding p.holdings d.ticker (fun h0 =>
          { h0 with shares := totalShares, avg_price := totalCost / totalShares })
      | none => p.holdings ++ [⟨d.ticker, (d.shares : ℚ), mockPrice⟩]
    record { p with holdings := holdings1, cash_balance := p.cash_balance - d.amount_usd }
  | .sell =>
    match getHolding p d.ticker with
    | none => none
    | some h =>
      if h.shares < (d.shares : ℚ) then none
      else
        let holdings1 :=
          if h.shares == (d.shares : ℚ) then p.holdings.filter (fun h0 => h0.ticker != d.ticker)
          else updFirstHolding p.holdings d.ticker
            (fun h0 => { h0 with shares := h.shares - (d.shares : ℚ) })
        record { p with holdings := holdings1, cash_balance := p.cash_balance + d.amount_usd }
  | .hold => record p

/-- One RISK_CHECK → EXECUTING pass of the backend orchestrator within a single
cycle (no interleaved mutation, per the single-loop-per-tenant design): execute
the decision only if `checkRisk` passed; a failed gate or a thrown execution
leaves portfolio and trade store untouched. -/
def riskThenExecute (p : Portfolio) (store : List Trade) (now : ℤ)
    (d : TradingDecision) : Portfolio × List Trade :=
  if (backendCheckRisk p store now d.action d.ticker d.amount_usd).passed then
    match backendExecuteTrade p store now d with
    | some (p1, store1) => (p1, store1)
    | none => (p, store)
  else (p, store)

/-! ## News relevance, selection and analysis
(`src/backend/agent/orchestrator.ts`, tavily service) -/

/-- `s.toLowerCase()` as a character list. -/
def lowerStr (s : String) : List Char :=
  s.toList.map Char.toLower

/-- `needle` is an initial segment of `haystack` (character-wise). -/
def hasLead : List Char → List Char → Bool
  | [], _ => true
  | _ :: _, [] => false
  | c :: cs, d :: ds => c == d && hasLead cs ds

/-- JavaScript `haystack.includes(needle)`: some suffix of `haystack` starts
with `needle` (always true for the empty needle). -/
def containsSub (needle : List Char) : List Char → Bool
  | [] => hasLead needle []
  | d :: ds => hasLead needle (d :: ds) || containsSub needle ds

/-- Helper for `countOccs`: scan the haystack one character at a time; a
positive skip counter marks positions still inside the previous match, where
no new match may start (non-overlapping, leftmost matching). -/
def countOccsFrom (needle : List Char) : List Char → Nat → Nat
  | [], _ => 0
  | _ :: ds, Nat.succ k => countOccsFrom needle ds k
  | d :: ds, 0 =>
    if hasLead needle (d :: ds) then 1 + countOccsFrom needle ds (needle.length - 1)
    else countOccsFrom needle ds 0

/-- `(haystack.match(new RegExp(needle, 'g')) || []).length` for a literal
needle: the number of non-overlapping, leftmost matches.  An empty needle
matches at every position (`length + 1`), as the JavaScript global regex does. -/
def countOccs (needle hay : List Char) : Nat :=
  if needle.isEmpty then hay.length + 1 else countOccsFrom needle hay 0

/-- `findMostAffectedTicker(content, tickers)`: the ticker with the strictly
largest case-insensitive mention count (first maximum wins); `none` when no
ticker is mentioned at all. -/
def findMostAffectedTicker (content : String) (tickers : List String) : Option String :=
  let contentLower := lowerStr content
  let result := tickers.foldl
    (fun acc ticker =>
      let mentions := countOccs (lowerStr ticker) contentLower
      if acc.1 < mentions then (mentions, some ticker) else acc)
    ((0 : Nat), (none : Option String))
  if 0 < result.1 then result.2 else none

/-- `TavilyService.filterRelevantNews`: keep the articles whose lowercased
`title + ' ' + content` contains at least one of the tickers. -/
def filterRelevantNews (articles : List NewsArticle) (tickers : List String) :
    List NewsArticle :=
  articles.filter (fun a =>
    let content := lowerStr (a.title ++ " " ++ a.content)
    tickers.any (fun t => containsSub (lowerStr t) content))

/-- One step of the stable sort behind
`relevantNews.sort((a, b) => (b.score || 0) - (a.score || 0))`: insert `a`
before the first element with a strictly smaller score, after all elements
with an equal or larger one (which preserves the original relative order of
ties). -/
def insertByScore (a : NewsArticle) : List NewsArticle → List NewsArticle
  | [] => [a]
  | b :: rest =>
    if b.score.getD 0 < a.score.getD 0 then a :: b :: rest
    else b :: insertByScore a rest

/-- `relevantNews.sort((a, b) => (b.score || 0) - (a.score || 0))`: a stable
sort by descending relevance score (missing scores count as 0).  JavaScript's
`Array.prototype.sort` is stable and a stable sort's output is uniquely
determined by the comparator, so a stable insertion sort embeds it exactly. -/
def sortByScoreDesc : List NewsArticle → List NewsArticle
  | [] => []
  | a :: rest => insertByScore a (sortByScoreDesc rest)

/-- Modelled from the spec: `redis.hasProcessedNews(email, url)` is called by
the backend orchestrator but is absent from `src/backend/services/redis.ts`
(only its callers are in the sources).  Per the spec the dedup key is the
article URL, durable per tenant, so the tenant's processed record is a set of
URLs and this operation is membership. -/
def hasProcessedNews (processed : List String) (url : String) : Bool :=
  processed.contains url

/-- Modelled from the spec: `redis.markNewsAsProcessed(email, url)` is called
by the backend orchestrator but is absent from `src/backend/services/redis.ts`.
It durably inserts the URL into the tenant's processed set. -/
def markNewsAsProcessed (processed : List String) (url : String) : List String :=
  url :: processed

/-- Result of one MONITORING pass of the backend orchestrator: the state it
transitions to, the article it picked (if any), the tenant's processed-URL set
after the pass, and the articles persisted for audit. -/
structure MonitorOutcome where
  nextState : AgentState
  picked : Option NewsArticle
  processed : List String
  persisted : List NewsArticle
deriving DecidableEq, Repr

/-- The backend orchestrator's `monitorNews` body: fetch the portfolio (oracle
argument), batch-search news across its tickers (oracle argument), filter to
relevant articles, sort by descending score, walk the sorted list for the first
article not already processed, and on a pick mark it processed and persist it
before advancing to ANALYZING.  Every no-progress branch stays in MONITORING
with the processed set unchanged. -/
def monitorNews (portfolio : Option Portfolio) (news : List NewsArticle)
    (processed : List String) : MonitorOutcome :=
  match portfolio with
  | none => ⟨.MONITORING, none, processed, []⟩
  | some p =>
    let tickers := p.holdings.map (fun h => h.ticker)
    if news.isEmpty then ⟨.MONITORING, none, processed, []⟩
    else
      let relevantNews := filterRelevantNews news tickers
      if relevantNews.isEmpty then ⟨.MONITORING, none, processed, []⟩
      else
        let sortedNews := sortByScoreDesc relevantNews
        match sortedNews.find? (fun a => !(hasProcessedNews processed a.url)) with
        | none => ⟨.MONITORING, none, processed, []⟩
        | some a => ⟨.ANALYZING, some a, markNewsAsProcessed processed a.url, [a]⟩

/-- The orchestrator's transient working state: `currentNews`,
`currentAnalysis`, `currentDecision`. -/
structure Working where
  currentNews : Option NewsArticle
  currentAnalysis : Option AnalysisCtx
  currentDecision : Option TradingDecision
deriving DecidableEq, Repr

/-- Result of one ANALYZING pass: next state plus the working state after it. -/
structure AnalyzeOutcome where
  nextState : AgentState
  working : Working
deriving DecidableEq, Repr

/-- The ANALYZING action gate:
`impact_score >= 7 && confidence >= 0.75 && action !== 'hold'`. -/
def analysisGate (a : GeminiAnalysis) : Bool :=
  decide (7 ≤ a.impact_score) && decide ((3 : ℚ) / 4 ≤ a.confidence)
    && !(a.action == .hold)

/-- The backend orchestrator's `analyzeNews` body.  The portfolio read and the
Gemini call are oracle arguments; the best-effort full-text extraction only
changes the text sent to Gemini, not the transition, so the obtained analysis
is taken directly.  Early aborts (no current news, no portfolio, no affected
ticker) return to MONITORING; once the analysis is obtained it is stored in
the working state and the gate decides between DECIDING and a cleared return
to MONITORING. -/
def analyzeNews (w : Working) (portfolio : Option Portfolio)
    (analysis : GeminiAnalysis) : AnalyzeOutcome :=
  match w.currentNews with
  | none => ⟨.MONITORING, w⟩
  | some n =>
    match portfolio with
    | none => ⟨.MONITORING, { w with currentNews := none }⟩
    | some p =>
      let tickers := p.holdings.map (fun h => h.ticker)
      match findMostAffectedTicker n.content tickers with
      | none => ⟨.MONITORING, { w with currentNews := none }⟩
      | some affectedTicker =>
        let ctx : AnalysisCtx := ⟨analysis, affectedTicker, n⟩
        let w1 := { w with currentAnalysis := some ctx }
        if analysisGate analysis then ⟨.DECIDING, w1⟩
        else ⟨.MONITORING, { w1 with currentNews := none, currentAnalysis := none }⟩

/-! ## Events, run loop and stop (`src/backend/agent/orchestrator.ts`) -/

/-- `AgentEvent.type`. -/
inductive EventType where
  | log
  | stateChange
  | tradeComplete
  | error
deriving DecidableEq, Repr

/-- An orchestrator event; `msg` stands for the `data` payload. -/
structure AgentEvent where
  type : EventType
  msg : String
deriving DecidableEq, Repr

/-- The orchestrator fields the run loop touches: the state machine state, the
`isRunning` flag, the bounded `events` ring buffer, and the unbounded trace of
every event delivered to the registered callbacks. -/
structure OrchState where
  state : AgentState
  isRunning : Bool
  events : List AgentEvent
  emitted : List AgentEvent
deriving DecidableEq, Repr

/-- `emitEvent`: push onto `events`, shift once when the buffer exceeds 100,
and notify every callback (modelled by the `emitted` trace). -/
def emitEvent (s : OrchState) (e : AgentEvent) : OrchState :=
  let es := s.events ++ [e]
  { s with
    events := if 100 < es.length then es.drop 1 else es
    emitted := s.emitted ++ [e] }

/-- `log`: every log entry is emitted as a `log` event. -/
def logEvent (s : OrchState) (m : String) : OrchState :=
  emitEvent s ⟨.log, m⟩

/-- `setState`: assign the new state, log the transition, emit `stateChange`. -/
def setState (s : OrchState) (ns : AgentState) : OrchState :=
  emitEvent (logEvent { s with state := ns } "State transition") ⟨.stateChange, "stateChange"⟩

/-- The `catch` clause at the top of the run loop: log the error, emit an
`error` event, and return to MONITORING (the backoff sleep follows). -/
def handleCycleError (s : OrchState) (m : String) : OrchState :=
  setState (emitEvent (logEvent s ("Error in agent loop: " ++ m)) ⟨.error, m⟩) .MONITORING

/-- `stop()`: clear `isRunning`, set the state to IDLE, log. -/
def stopAgent (s : OrchState) : OrchState :=
  logEvent (setState { s with isRunning := false } .IDLE) "Agent stopped"

/-- Outcome of one cycle body: normal completion with a successor state, or a
thrown exception carrying its message. -/
inductive CycleOutcome where
  | ok (s : OrchState)
  | err (m : String)

/-- One iteration of `while (this.isRunning) { try ... catch ... }`: `none`
when the loop's guard is false (the loop exits), otherwise the cycle body runs
and an exception is routed through the catch clause. -/
def loopIter (s : OrchState) (body : OrchState → CycleOutcome) : Option OrchState :=
  if s.isRunning then
    some (match body s with
          | .ok s1 => s1
          | .err m => handleCycleError s m)
  else none

/-- Run the loop through a list of cycle bodies, stopping early only when the
`isRunning` guard fails. -/
def runLoop (s : OrchState) : List (OrchState → CycleOutcome) → OrchState
  | [] => s
  | body :: rest =>
    match loopIter s body with
    | none => s
    | some s1 => runLoop s1 rest

/-! ## Reference heap for the aliasing claims -/

/-- A tiny heap of mutable cells; a reference is an index into `cells`. -/
structure Heap (α : Type) where
  cells : List α
deriving Repr

/-- Read the cell behind reference `r`. -/
def hread {α : Type} (h : Heap α) (r : ℕ) : Option α :=
  h.cells[r]?

/-- Overwrite the cell behind reference `r` (out-of-range writes are lost,
matching that such a reference cannot exist). -/
def hwrite {α : Type} (h : Heap α) (r : ℕ) (v : α) : Heap α :=
  ⟨h.cells.set r v⟩

/-- Allocate a fresh cell holding `v`, returning the new heap and reference. -/
def halloc {α : Type} (h : Heap α) (v : α) : Heap α × ℕ :=
  (⟨h.cells ++ [v]⟩, h.cells.length)

/-- `getEvents()` returns `[...this.events]`: allocate a fresh array whose
contents equal the internal buffer's, and hand out the fresh reference. -/
def getEventsCopy (h : Heap (List AgentEvent)) (internal : ℕ) :
    Heap (List AgentEvent) × ℕ :=
  halloc h ((hread h internal).getD [])

/-- A JavaScript portfolio object as stored by `PortfolioService`: top-level
number/string fields plus a reference to the holdings array. -/
structure PortfolioObj where
  cash_balance : ℚ
  risk_tolerance : String
  holdingsRef : ℕ
deriving DecidableEq, Repr

/-- `PortfolioService.getPortfolio()` returns `{ ...this.portfolio }`: allocate
a fresh object with the same top-level field values (the holdings reference is
copied, not the array). -/
def getPortfolioCopy (h : Heap PortfolioObj) (internal : ℕ) :
    Heap PortfolioObj × ℕ :=
  halloc h ((hread h internal).getD ⟨0, "", 0⟩)

/-- `PortfolioService.getHoldings()` returns `[...this.portfolio.holdings]`:
allocate a fresh array with the same elements. -/
def getHoldingsCopy (h : Heap (List Holding)) (internal : ℕ) :
    Heap (List Holding) × ℕ :=
  halloc h ((hread h internal).getD [])

/-! ## Spec-side definitions used to state the claims -/

/-- The data-model invariant of spec §3 assumed by the concentration claim:
cash and every holding's position value are nonnegative. -/
def NonnegValues (p : Portfolio) : Prop :=
  0 ≤ p.cash_balance ∧ ∀ h ∈ p.holdings, 0 ≤ h.shares * h.avg_price

/-- Value of the tenant's existing position in `ticker` (`0` when absent). -/
def tickerValue (p : Portfolio) (ticker : String) : ℚ :=
  match getHolding p ticker with
  | some h => h.shares * h.avg_price
  | none => 0

/-- The concentration denominator as the claim words it: the total portfolio
value, falling back to `cash_balance + amount_usd` when the current total
value is zero.  (Under cost-basis accounting a buy moves `amount_usd` from
cash into the position, so the projected total equals the current total.) -/
def specConcDenom (p : Portfolio) (amount_usd : ℚ) : ℚ :=
  if getTotalValue p = 0 then p.cash_balance + amount_usd else getTotalValue p

/-! ## Helper lemmas -/

theorem holdingsValue_eq_sum (hs : List Holding) :
    holdingsValue hs = (hs.map (fun h => h.shares * h.avg_price)).sum := by
  suffices h : ∀ (a : ℚ), hs.foldl (fun sum h => sum + h.shares * h.avg_price) a
      = a + (hs.map (fun h => h.shares * h.avg_price)).sum by
    simpa [holdingsValue] using h 0
  induction hs with
  | nil => intro a; simp
  | cons x xs ih =>
    intro a
    simp only [List.foldl_cons, List.map_cons, List.sum_cons, ih]
    ring

theorem mul100_le_30 (x : ℚ) : x * 100 ≤ 30 ↔ x ≤ 3 / 10 := by
  constructor <;> intro h <;> linarith

theorem find?_updFirstHolding (l : List Holding) (ticker : String)
    (f : Holding → Holding) (hf : ∀ h, (f h).ticker = h.ticker) :
    (updFirstHolding l ticker f).find? (fun h => h.ticker == ticker)
      = (l.find? (fun h => h.ticker == ticker)).map f := by
  induction l with
  | nil => rfl
  | cons h rest ih =>
    by_cases hht : h.ticker == ticker
    · simp [updFirstHolding, hht, List.find?, hf]
    · simp only [updFirstHolding, hht, if_false, Bool.false_eq_true]
      rw [List.find?]
      simp only [hht]
      rw [List.find?]
      simp only [hht]
      exact ih

theorem find?_filter_ticker_ne (l : List Holding) (ticker : String) :
    (l.filter (fun h => h.ticker != ticker)).find? (fun h => h.ticker == ticker)
      = none := by
  rw [List.find?_eq_none]
  intro h hmem
  rcases List.mem_filter.mp hmem with ⟨-, hne⟩
  simpa using hne

theorem svcExecuteTrade_cash_nonneg (s : SvcState) (ticker : String)
    (action : ActionKind) (shares price : ℚ) (now : ℤ)
    (h0 : 0 ≤ s.portfolio.cash_balance) (ha : 0 ≤ shares * price) :
    0 ≤ (svcExecuteTrade s ticker action shares price now).1.portfolio.cash_balance := by
  cases action with
  | buy =>
    by_cases hc : shares * price ≤ s.portfolio.cash_balance
    · simp only [svcExecuteTrade, canAffordTrade, decide_eq_true_eq, hc, if_true]
      simpa using by linarith
    · simp [svcExecuteTrade, canAffordTrade, hc, h0]
  | sell =>
    cases hfind : getHolding s.portfolio ticker with
    | none => simp [svcExecuteTrade, hfind, h0]
    | some hh =>
      by_cases hls : hh.shares < shares
      · simp [svcExecuteTrade, hfind, hls, h0]
      · simp only [svcExecuteTrade, hfind, hls, if_false]
        simpa using by linarith
  | hold => simpa [svcExecuteTrade] using h0

/-! ## Claim theorems -/

/-- Claim C2: the risk check passes iff all three sub-checks are true; sells
always report `sufficient_balance` and `position_limit` true (only the
frequency check can fail them); for buys `sufficient_balance` is true iff
`cash_balance >= amount_usd`; and `daily_trade_limit` is true iff strictly
fewer than 3 recorded trades have timestamps inside the trailing 24 hours
(exactly 2 passes, exactly 3 fails). -/
theorem C2_risk_gate_semantics (s : SvcState) (ticker : String) (amountUSD : ℚ)
    (now : ℤ) :
    (∀ action, (svcCheckRisk s action ticker amountUSD now).passed = true ↔
      ((svcCheckRisk s action ticker amountUSD now).sufficient_balance = true ∧
       (svcCheckRisk s action ticker amountUSD now).position_limit = true ∧
       (svcCheckRisk s action ticker amountUSD now).daily_trade_limit = true)) ∧
    ((svcCheckRisk s .sell ticker amountUSD now).sufficient_balance = true ∧
     (svcCheckRisk s .sell ticker amountUSD now).position_limit = true) ∧
    ((svcCheckRisk s .buy ticker amountUSD now).sufficient_balance = true ↔
      amountUSD ≤ s.portfolio.cash_balance) ∧
    (∀ action, (svcCheckRisk s action ticker amountUSD now).daily_trade_limit = true ↔
      (s.tradeHistory.filter
        (fun t => decide (now - millisPerDay < t.timestamp))).length < 3) ∧
    ((s.tradeHistory.filter
        (fun t => decide (now - millisPerDay < t.timestamp))).length = 2 →
      (svcCheckRisk s .buy ticker amountUSD now).daily_trade_limit = true) ∧
    ((s.tradeHistory.filter
        (fun t => decide (now - millisPerDay < t.timestamp))).length = 3 →
      (svcCheckRisk s .buy ticker amountUSD now).daily_trade_limit = false) := by
  refine ⟨?_, ?_, ?_, ?_, ?_, ?_⟩
  · intro action
    cases action <;>
      simp [svcCheckRisk, Bool.and_eq_true, and_assoc]
  · simp [svcCheckRisk]
  · simp [svcCheckRisk, canAffordTrade]
  · intro action
    cases action <;> simp [svcCheckRisk]
  · intro hlen
    simp [svcCheckRisk, hlen]
  · intro hlen
    simp [svcCheckRisk, hlen]

/-- Claim C2 witness: with exactly two trades inside the trailing 24 hours the
frequency gate passes, with exactly three it fails (concrete instantiation of
`C2_risk_gate_semantics`). -/
theorem C2_risk_gate_semantics_witness :
    (svcCheckRisk ⟨⟨[], 1000, "moderate"⟩,
      [⟨"A", .buy, 1, 1, 999⟩, ⟨"B", .buy, 1, 1, 998⟩]⟩ .buy "X" 10 1000
        |>.daily_trade_limit) = true ∧
    (svcCheckRisk ⟨⟨[], 1000, "moderate"⟩,
      [⟨"A", .buy, 1, 1, 999⟩, ⟨"B", .buy, 1, 1, 998⟩, ⟨"C", .sell, 1, 1, 997⟩]⟩
        .buy "X" 10 1000 |>.daily_trade_limit) = false := by
  constructor
  · exact (C2_risk_gate_semantics ⟨⟨[], 1000, "moderate"⟩,
      [⟨"A", .buy, 1, 1, 999⟩, ⟨"B", .buy, 1, 1, 998⟩]⟩ "X" 10 1000).2.2.2.2.1
      (by decide)
  · exact (C2_risk_gate_semantics ⟨⟨[], 1000, "moderate"⟩,
      [⟨"A", .buy, 1, 1, 999⟩, ⟨"B", .buy, 1, 1, 998⟩, ⟨"C", .sell, 1, 1, 997⟩]⟩
      "X" 10 1000).2.2.2.2.2 (by decide)

/-- Claim C3: for buys, `position_limit` is true iff the existing position
value plus `amount_usd`, divided by the total portfolio value (falling back to
`cash_balance + amount_usd` when the total value is zero), is at most 30%; at
total value $1000 with no existing position, $300 passes and $300.01 fails. -/
theorem C3_concentration_bound :
    (∀ (s : SvcState) (ticker : String) (amountUSD : ℚ) (now : ℤ),
      NonnegValues s.portfolio →
      ((svcCheckRisk s .buy ticker amountUSD now).position_limit = true ↔
        (tickerValue s.portfolio ticker + amountUSD)
          / specConcDenom s.portfolio amountUSD ≤ 3 / 10)) ∧
    (svcCheckRisk ⟨⟨[], 1000, "moderate"⟩, []⟩ .buy "X" 300 0).position_limit
      = true ∧
    (svcCheckRisk ⟨⟨[], 1000, "moderate"⟩, []⟩ .buy "X" (30001 / 100) 0
      |>.position_limit) = false := by
  refine ⟨?_, ?_, ?_⟩
  · intro s ticker amountUSD now hnn
    obtain ⟨hcash, hhold⟩ := hnn
    by_cases hpos : 0 < getTotalValue s.portfolio
    · have hne : getTotalValue s.portfolio ≠ 0 := ne_of_gt hpos
      cases hfind : getHolding s.portfolio ticker with
      | none =>
        simp only [svcCheckRisk, getExposure, tickerValue, specConcDenom, hfind,
          hpos, if_pos, hne, if_neg, if_true, decide_eq_true_eq]
        rw [show (0 : ℚ) + amountUSD / getTotalValue s.portfolio * 100
            = (0 + amountUSD) / getTotalValue s.portfolio * 100 by ring]
        exact mul100_le_30 _
      | some h =>
        simp only [svcCheckRisk, getExposure, tickerValue, specConcDenom, hfind,
          hpos, if_pos, hne, if_neg, if_true, decide_eq_true_eq]
        rw [show h.shares * h.avg_price / getTotalValue s.portfolio * 100
              + amountUSD / getTotalValue s.portfolio * 100
            = (h.shares * h.avg_price + amountUSD) / getTotalValue s.portfolio * 100
            by ring]
        exact mul100_le_30 _
    · have hv_sum : holdingsValue s.portfolio.holdings
          = (s.portfolio.holdings.map (fun h => h.shares * h.avg_price)).sum :=
        holdingsValue_eq_sum _
      have hsum_nonneg :
          0 ≤ (s.portfolio.holdings.map (fun h => h.shares * h.avg_price)).sum := by
        apply List.sum_nonneg
        intro x hx
        rcases List.mem_map.mp hx with ⟨h, hm, rfl⟩
        exact hhold h hm
      have htot_nonneg : 0 ≤ getTotalValue s.portfolio := by
        rw [getTotalValue, hv_sum]; linarith
      have htot : getTotalValue s.portfolio = 0 :=
        le_antisymm (not_lt.mp hpos) htot_nonneg
      have hsum_zero :
          (s.portfolio.holdings.map (fun h => h.shares * h.avg_price)).sum = 0 := by
        have := htot
        rw [getTotalValue, hv_sum] at this
        linarith
      have hcash_zero : s.portfolio.cash_balance = 0 := by
        have := htot
        rw [getTotalValue, hv_sum, hsum_zero] at this
        linarith
      have htv : tickerValue s.portfolio ticker = 0 := by
        cases hfind : getHolding s.portfolio ticker with
        | none => simp [tickerValue, hfind]
        | some h =>
          have hm : h ∈ s.portfolio.holdings :=
            List.mem_of_find?_eq_some hfind
          have hle : h.shares * h.avg_price
              ≤ (s.portfolio.holdings.map (fun h => h.shares * h.avg_price)).sum := by
            apply List.single_le_sum
            · intro x hx
              rcases List.mem_map.mp hx with ⟨h2, hm2, rfl⟩
              exact hhold h2 hm2
            · exact List.mem_map_of_mem _ hm
          have hge : 0 ≤ h.shares * h.avg_price := hhold h hm
          simp only [tickerValue, hfind]
          rw [hsum_zero] at hle
          linarith
      simp only [svcCheckRisk, specConcDenom, htot, if_pos, hpos, if_neg,
        if_false, decide_eq_true_eq, htv, zero_add]
      rw [hcash_zero]
      exact mul100_le_30 _
  · simp [svcCheckRisk, getExposure, getHolding, getTotalValue, holdingsValue]
    norm_num
  · simp [svcCheckRisk, getExposure, getHolding, getTotalValue, holdingsValue]
    norm_num

/-- Claim C1: a successful buy debits cash by exactly the trade's USD amount
(`shares * price` in the service; `amount_usd` in the backend orchestrator)
and a successful sell credits it by the same amount; a buy whose amount
exceeds the current cash balance is rejected before any mutation (service:
`executeTrade` returns `false` with the state untouched; backend: the
RISK_CHECK gate fails, so EXECUTING is never reached); consequently
`cash_balance >= 0` is preserved by every sequence of executions whose trade
amounts are nonnegative. -/
theorem C1_cash_conservation :
    (∀ (s : SvcState) (ticker : String) (shares price : ℚ) (now : ℤ),
      (svcExecuteTrade s ticker .buy shares price now).2 = true →
        (svcExecuteTrade s ticker .buy shares price now).1.portfolio.cash_balance
            = s.portfolio.cash_balance - shares * price ∧
          0 ≤ (svcExecuteTrade s ticker .buy shares price now).1.portfolio.cash_balance) ∧
    (∀ (s : SvcState) (ticker : String) (shares price : ℚ) (now : ℤ),
      s.portfolio.cash_balance < shares * price →
        svcExecuteTrade s ticker .buy shares price now = (s, false)) ∧
    (∀ (s : SvcState) (ticker : String) (shares price : ℚ) (now : ℤ),
      (svcExecuteTrade s ticker .sell shares price now).2 = true →
        (svcExecuteTrade s ticker .sell shares price now).1.portfolio.cash_balance
          = s.portfolio.cash_balance + shares * price) ∧
    (∀ (s : SvcState) (reqs : List (String × ActionKind × ℚ × ℚ × ℤ)),
      0 ≤ s.portfolio.cash_balance →
      (∀ r ∈ reqs, 0 ≤ r.2.2.1 * r.2.2.2.1) →
      0 ≤ (svcExecMany s reqs).portfolio.cash_balance) ∧
    (∀ (p : Portfolio) (store : List Trade) (now : ℤ) (d : TradingDecision),
      d.action = .buy → p.cash_balance < d.amount_usd →
        riskThenExecute p store now d = (p, store)) ∧
    (∀ (p : Portfolio) (store : List Trade) (now : ℤ) (d : TradingDecision)
        (p1 : Portfolio) (store1 : List Trade),
      backendExecuteTrade p store now d = some (p1, store1) →
        (d.action = .buy → p1.cash_balance = p.cash_balance - d.amount_usd) ∧
        (d.action = .sell → p1.cash_balance = p.cash_balance + d.amount_usd)) := by
  refine ⟨?_, ?_, ?_, ?_, ?_, ?_⟩
  · intro s ticker shares price now hok
    by_cases hc : shares * price ≤ s.portfolio.cash_balance
    · constructor
      · simp [svcExecuteTrade, canAffordTrade, hc]
      · simp only [svcExecuteTrade, canAffordTrade, decide_eq_true_eq, hc, if_true]
        simpa using by linarith
    · simp [svcExecuteTrade, canAffordTrade, hc] at hok
  · intro s ticker shares price now hlt
    have hc : ¬ shares * price ≤ s.portfolio.cash_balance := not_le.mpr hlt
    simp [svcExecuteTrade, canAffordTrade, hc]
  · intro s ticker shares price now hok
    cases hfind : getHolding s.portfolio ticker with
    | none => simp [svcExecuteTrade, hfind] at hok
    | some hh =>
      by_cases hls : hh.shares < shares
      · simp [svcExecuteTrade, hfind, hls] at hok
      · simp [svcExecuteTrade, hfind, hls]
  · intro s reqs
    induction reqs generalizing s with
    | nil => intro h0 _; simpa [svcExecMany] using h0
    | cons r rest ih =>
      intro h0 hr
      obtain ⟨ticker, action, shares, price, now⟩ := r
      have hstep := svcExecuteTrade_cash_nonneg s ticker action shares price now h0
        (by simpa using hr _ (List.mem_cons_self _ _))
      exact ih _ hstep (fun x hx => hr x (List.mem_cons_of_mem _ hx))
  · intro p store now d hd hlt
    have hno : ¬ d.amount_usd ≤ p.cash_balance := not_le.mpr hlt
    rw [riskThenExecute]
    have hfail : (backendCheckRisk p store now d.action d.ticker d.amount_usd).passed
        = false := by
      simp [backendCheckRisk, hd, hno]
    simp [hfail]
  · intro p store now d p1 store1 hsome
    constructor
    · intro hd
      rw [backendExecuteTrade, hd] at hsome
      simp only [Option.some_inj, Prod.mk.injEq] at hsome
      rw [← hsome.1]
    · intro hd
      rw [backendExecuteTrade, hd] at hsome
      cases hfind : getHolding p d.ticker with
      | none => simp [hfind] at hsome
      | some hh =>
        by_cases hls : hh.shares < (d.shares : ℚ)
        · simp [hfind, hls] at hsome
        · simp only [hfind, hls, if_false] at hsome
          simp only [Option.some_inj, Prod.mk.injEq] at hsome
          rw [← hsome.1]

/-- Claim C1 witness: `C1_cash_conservation` instantiated at a Service with
$100 cash — a $50 buy debits exactly $50 and keeps the balance nonnegative, a
too-large buy is rejected unchanged, and a one-buy sequence preserves
nonnegativity. -/
theorem C1_cash_conservation_witness :
    ((svcExecuteTrade ⟨⟨[], 100, "moderate"⟩, []⟩ "X" .buy 1 50 7).1.portfolio.cash_balance
        = (⟨⟨[], 100, "moderate"⟩, []⟩ : SvcState).portfolio.cash_balance - 1 * 50 ∧
      0 ≤ (svcExecuteTrade ⟨⟨[], 100, "moderate"⟩, []⟩ "X" .buy 1 50 7
        |>.1.portfolio.cash_balance)) ∧
    svcExecuteTrade ⟨⟨[], 100, "moderate"⟩, []⟩ "X" .buy 3 50 7
      = (⟨⟨[], 100, "moderate"⟩, []⟩, false) ∧
    0 ≤ (svcExecMany ⟨⟨[], 100, "moderate"⟩, []⟩
      [("X", .buy, 1, 50, 7)]).portfolio.cash_balance := by
  refine ⟨?_, ?_, ?_⟩
  · exact C1_cash_conservation.1 ⟨⟨[], 100, "moderate"⟩, []⟩ "X" 1 50 7
      (by simp [svcExecuteTrade, canAffordTrade]; norm_num)
  · exact C1_cash_conservation.2.1 ⟨⟨[], 100, "moderate"⟩, []⟩ "X" 3 50 7
      (by norm_num)
  · exact C1_cash_conservation.2.2.2.1 ⟨⟨[], 100, "moderate"⟩, []⟩
      [("X", .buy, 1, 50, 7)] (by norm_num)
      (by intro r hr; rw [List.mem_singleton] at hr; subst hr; norm_num)

/-- Claim C4: a buy into an existing holding adds the bought shares and moves
the average price to the weighted-average cost basis; a sell keeps the average
price and removes the holding when its share count reaches exactly zero;
buying 10 shares at $100 into 10 shares at $80 yields 20 shares at $90. -/
theorem C4_weighted_average :
    (∀ (s : SvcState) (ticker : String) (shares price : ℚ) (now : ℤ) (h0 : Holding),
      getHolding s.portfolio ticker = some h0 →
      shares * price ≤ s.portfolio.cash_balance →
      (getHolding (svcExecuteTrade s ticker .buy shares price now).1.portfolio ticker).map
          (fun h => (h.shares, h.avg_price))
        = some (h0.shares + shares,
            (h0.shares * h0.avg_price + shares * price) / (h0.shares + shares))) ∧
    (∀ (s : SvcState) (ticker : String) (shares price : ℚ) (now : ℤ) (h0 : Holding),
      getHolding s.portfolio ticker = some h0 →
      ¬ h0.shares < shares → ¬ h0.shares - shares = 0 →
      (getHolding (svcExecuteTrade s ticker .sell shares price now).1.portfolio ticker).map
          (fun h => (h.shares, h.avg_price))
        = some (h0.shares - shares, h0.avg_price)) ∧
    (∀ (s : SvcState) (ticker : String) (price : ℚ) (now : ℤ) (h0 : Holding),
      getHolding s.portfolio ticker = some h0 →
      getHolding (svcExecuteTrade s ticker .sell h0.shares price now).1.portfolio ticker
        = none) ∧
    (svcExecuteTrade ⟨⟨[⟨"AAPL", 10, 80⟩], 10000, "moderate"⟩, []⟩
        "AAPL" .buy 10 100 0).1.portfolio.holdings = [⟨"AAPL", 20, 90⟩] := by
  refine ⟨?_, ?_, ?_, ?_⟩
  · intro s ticker shares price now h0 hfind hc
    simp only [svcExecuteTrade, canAffordTrade, decide_eq_true_eq, hc, if_true, hfind]
    rw [getHolding]
    simp only
    rw [find?_updFirstHolding s.portfolio.holdings ticker
          (fun h =>
            { ticker := h.ticker, shares := h.shares + shares,
              avg_price := (h.shares * h.avg_price + shares * price) / (h.shares + shares) })
          (fun h => rfl)]
    rw [getHolding] at hfind
    rw [hfind]
    simp
  · intro s ticker shares price now h0 hfind hls hne
    simp only [svcExecuteTrade, hfind, hls, if_false]
    have hbeq : (h0.shares - shares == 0) = false := by
      simpa using hne
    simp only [hbeq, Bool.false_eq_true, if_false]
    rw [getHolding]
    simp only
    rw [find?_updFirstHolding s.portfolio.holdings ticker
          (fun h =>
            { ticker := h.ticker, shares := h.shares - shares, avg_price := h.avg_price })
          (fun h => rfl)]
    rw [getHolding] at hfind
    rw [hfind]
    simp
  · intro s ticker price now h0 hfind
    have hls : ¬ h0.shares < h0.shares := lt_irrefl _
    simp only [svcExecuteTrade, hfind, hls, if_false]
    have hbeq : (h0.shares - h0.shares == 0) = true := by simp
    simp only [hbeq, if_true]
    rw [getHolding]
    simp only
    exact find?_filter_ticker_ne _ _
  · have hfind : getHolding (⟨[⟨"AAPL", 10, 80⟩], 10000, "moderate"⟩ : Portfolio) "AAPL"
        = some ⟨"AAPL", 10, 80⟩ := by simp [getHolding]
    simp only [svcExecuteTrade, canAffordTrade, hfind]
    norm_num [updFirstHolding]

/-- Claim C4 witness: `C4_weighted_average` applied to the concrete $80/$100
example, discharging the existing-holding and affordability hypotheses. -/
theorem C4_weighted_average_witness :
    (getHolding (svcExecuteTrade ⟨⟨[⟨"AAPL", 10, 80⟩], 10000, "moderate"⟩, []⟩
        "AAPL" .buy 10 100 0).1.portfolio "AAPL").map (fun h => (h.shares, h.avg_price))
      = some ((10 : ℚ) + 10, ((10 : ℚ) * 80 + 10 * 100) / (10 + 10)) :=
  C4_weighted_average.1 ⟨⟨[⟨"AAPL", 10, 80⟩], 10000, "moderate"⟩, []⟩
    "AAPL" 10 100 0 ⟨"AAPL", 10, 80⟩ (by simp [getHolding]) (by norm_num)

/-- Claim C3 witness: `C3_concentration_bound` instantiated at the boundary
portfolio (cash $1000, no holdings), discharging the nonnegativity invariant. -/
theorem C3_concentration_bound_witness :
    (svcCheckRisk ⟨⟨[], 1000, "moderate"⟩, []⟩ .buy "X" 300 0).position_limit = true ↔
      (tickerValue ⟨[], 1000, "moderate"⟩ "X" + 300)
        / specConcDenom ⟨[], 1000, "moderate"⟩ 300 ≤ 3 / 10 :=
  C3_concentration_bound.1 ⟨⟨[], 1000, "moderate"⟩, []⟩ "X" 300 0
    ⟨by norm_num, by simp⟩

theorem mem_insertByScore (a x : NewsArticle) (l : List NewsArticle) :
    x ∈ insertByScore a l ↔ x = a ∨ x ∈ l := by
  induction l with
  | nil => simp [insertByScore]
  | cons b rest ih =>
    by_cases hlt : b.score.getD 0 < a.score.getD 0
    · simp [insertByScore, hlt]
    · simp [insertByScore, hlt, ih]
      tauto

theorem pairwise_insertByScore (a : NewsArticle) (l : List NewsArticle)
    (hl : l.Pairwise (fun x y => y.score.getD 0 ≤ x.score.getD 0)) :
    (insertByScore a l).Pairwise (fun x y => y.score.getD 0 ≤ x.score.getD 0) := by
  induction l with
  | nil => simp [insertByScore]
  | cons b rest ih =>
    rcases List.pairwise_cons.mp hl with ⟨hb, hrest⟩
    by_cases hlt : b.score.getD 0 < a.score.getD 0
    · simp only [insertByScore, hlt, if_true]
      refine List.pairwise_cons.mpr ⟨?_, hl⟩
      intro y hy
      rcases List.mem_cons.mp hy with rfl | hy2
      · exact le_of_lt hlt
      · exact le_trans (hb y hy2) (le_of_lt hlt)
    · simp only [insertByScore, hlt, if_false]
      refine List.pairwise_cons.mpr ⟨?_, ih hrest⟩
      intro y hy
      rcases (mem_insertByScore a y rest).mp hy with rfl | hy2
      · exact not_lt.mp hlt
      · exact hb y hy2

theorem sortByScoreDesc_pairwise (l : List NewsArticle) :
    (sortByScoreDesc l).Pairwise (fun x y => y.score.getD 0 ≤ x.score.getD 0) := by
  induction l with
  | nil => simp [sortByScoreDesc]
  | cons a rest ih => exact pairwise_insertByScore a _ ih

theorem monitorNews_picked_eq (p : Portfolio) (news : List NewsArticle)
    (processed : List String) :
    (monitorNews (some p) news processed).picked
      = (sortByScoreDesc (filterRelevantNews news
          (p.holdings.map (fun h => h.ticker)))).find?
            (fun a => !(hasProcessedNews processed a.url)) := by
  rw [monitorNews]
  by_cases hn : news.isEmpty
  · have : news = [] := List.isEmpty_iff.mp hn
    subst this
    simp [filterRelevantNews, sortByScoreDesc]
  · simp only [hn, if_false, Bool.false_eq_true]
    by_cases hr : (filterRelevantNews news (p.holdings.map (fun h => h.ticker))).isEmpty
    · have hrel : filterRelevantNews news (p.holdings.map (fun h => h.ticker)) = [] :=
        List.isEmpty_iff.mp hr
      simp [hr, hrel, sortByScoreDesc]
    · simp only [hr, if_false, Bool.false_eq_true]
      cases hfind : (sortByScoreDesc (filterRelevantNews news
          (p.holdings.map (fun h => h.ticker)))).find?
            (fun a => !(hasProcessedNews processed a.url)) <;> simp [hfind]

theorem monitorNews_pick_outcome (p : Portfolio) (news : List NewsArticle)
    (processed : List String) (a : NewsArticle)
    (h : (monitorNews (some p) news processed).picked = some a) :
    monitorNews (some p) news processed
      = ⟨.ANALYZING, some a, a.url :: processed, [a]⟩ := by
  rw [monitorNews] at h ⊢
  by_cases hn : news.isEmpty
  · simp [hn] at h
  · simp only [hn, if_false, Bool.false_eq_true] at h ⊢
    by_cases hr : (filterRelevantNews news (p.holdings.map (fun h => h.ticker))).isEmpty
    · simp [hr] at h
    · simp only [hr, if_false, Bool.false_eq_true] at h ⊢
      cases hfind : (sortByScoreDesc (filterRelevantNews news
          (p.holdings.map (fun h => h.ticker)))).find?
            (fun a => !(hasProcessedNews processed a.url)) with
      | none => simp [hfind] at h
      | some b =>
        simp only [hfind] at h ⊢
        simp only [MonitorOutcome.mk.injEq, Option.some_inj] at h
        subst h
        simp [markNewsAsProcessed]

/-- Claim C5: once `analyzeNews` has obtained an analysis (there is a current
article, a configured portfolio and an affected ticker), it advances to
DECIDING iff `impact_score >= 7`, `confidence >= 0.75` and the action is not
`hold`; any analysis failing the gate sends the machine back to MONITORING
with `currentNews` and `currentAnalysis` cleared. -/
theorem C5_analysis_gate (w : Working) (p : Portfolio) (a : GeminiAnalysis)
    (n : NewsArticle) (t : String)
    (hn : w.currentNews = some n)
    (ht : findMostAffectedTicker n.content (p.holdings.map (fun h => h.ticker))
      = some t) :
    ((analyzeNews w (some p) a).nextState = .DECIDING ↔
      (7 ≤ a.impact_score ∧ (3 : ℚ) / 4 ≤ a.confidence ∧ a.action ≠ .hold)) ∧
    (¬ (7 ≤ a.impact_score ∧ (3 : ℚ) / 4 ≤ a.confidence ∧ a.action ≠ .hold) →
      (analyzeNews w (some p) a).nextState = .MONITORING ∧
      (analyzeNews w (some p) a).working.currentNews = none ∧
      (analyzeNews w (some p) a).working.currentAnalysis = none) := by
  have hgate : analysisGate a = true ↔
      (7 ≤ a.impact_score ∧ (3 : ℚ) / 4 ≤ a.confidence ∧ a.action ≠ .hold) := by
    simp [analysisGate, and_assoc]
  by_cases hg : analysisGate a = true
  · constructor
    · constructor
      · intro _
        exact hgate.mp hg
      · intro _
        simp [analyzeNews, hn, ht, hg]
    · intro hfail
      exact absurd (hgate.mp hg) hfail
  · have hgf : analysisGate a = false := by
      revert hg; cases analysisGate a <;> simp
    constructor
    · constructor
      · intro habs
        simp [analyzeNews, hn, ht, hgf] at habs
      · intro hcond
        exact absurd (hgate.mpr hcond) hg
    · intro _
      simp [analyzeNews, hn, ht, hgf]

/-- Claim C5 witness: `C5_analysis_gate` at a concrete article mentioning
AAPL, once with a passing analysis (impact 9, confidence 0.9, buy) and the
gate satisfied, once refuting the gate for impact 5. -/
theorem C5_analysis_gate_witness :
    ((analyzeNews ⟨some ⟨"t", "u", "AAPL beats", none⟩, none, none⟩
        (some ⟨[⟨"AAPL", 10, 80⟩], 1000, "moderate"⟩)
        ⟨9, .bullish, .buy, 9 / 10, 500, "r"⟩).nextState = .DECIDING) ∧
    ((analyzeNews ⟨some ⟨"t", "u", "AAPL beats", none⟩, none, none⟩
        (some ⟨[⟨"AAPL", 10, 80⟩], 1000, "moderate"⟩)
        ⟨5, .bullish, .buy, 9 / 10, 500, "r"⟩).nextState = .MONITORING) := by
  constructor
  · exact (C5_analysis_gate ⟨some ⟨"t", "u", "AAPL beats", none⟩, none, none⟩
      ⟨[⟨"AAPL", 10, 80⟩], 1000, "moderate"⟩ ⟨9, .bullish, .buy, 9 / 10, 500, "r"⟩
      ⟨"t", "u", "AAPL beats", none⟩ "AAPL" rfl (by decide)).1.mpr
      ⟨by norm_num, by norm_num, by decide⟩
  · exact ((C5_analysis_gate ⟨some ⟨"t", "u", "AAPL beats", none⟩, none, none⟩
      ⟨[⟨"AAPL", 10, 80⟩], 1000, "moderate"⟩ ⟨5, .bullish, .buy, 9 / 10, 500, "r"⟩
      ⟨"t", "u", "AAPL beats", none⟩ "AAPL" rfl (by decide)).2
      (by intro hcond; have := hcond.1; norm_num at this)).1

/-- Claim C6: a MONITORING pass selects the highest-scored relevant article not
already processed (the sorted walk), never re-selects a processed URL, marks
the pick processed in the same pass it advances to ANALYZING, only grows the
processed set, and therefore no later pass — whatever its portfolio and news —
can pick an article with a previously processed URL. -/
theorem C6_idempotent_dedup :
    (∀ (pf : Option Portfolio) (news : List NewsArticle) (processed : List String)
        (a : NewsArticle),
      (monitorNews pf news processed).picked = some a →
        hasProcessedNews processed a.url = false ∧
        a.url ∈ (monitorNews pf news processed).processed ∧
        (monitorNews pf news processed).nextState = .ANALYZING) ∧
    (∀ (pf : Option Portfolio) (news : List NewsArticle) (processed : List String),
      ∀ u ∈ processed, u ∈ (monitorNews pf news processed).processed) ∧
    (∀ (p : Portfolio) (news : List NewsArticle) (processed : List String),
      (monitorNews (some p) news processed).picked
        = (sortByScoreDesc (filterRelevantNews news
            (p.holdings.map (fun h => h.ticker)))).find?
              (fun a => !(hasProcessedNews processed a.url))) ∧
    (∀ (l : List NewsArticle),
      (sortByScoreDesc l).Pairwise (fun a b => b.score.getD 0 ≤ a.score.getD 0)) ∧
    (∀ (pf pf2 : Option Portfolio) (news news2 : List NewsArticle)
        (processed processed2 : List String) (a b : NewsArticle),
      (monitorNews pf news processed).picked = some a →
      (∀ u ∈ (monitorNews pf news processed).processed, u ∈ processed2) →
      (monitorNews pf2 news2 processed2).picked = some b →
      b.url ≠ a.url) := by
  have hpick : ∀ (pf : Option Portfolio) (news : List NewsArticle)
      (processed : List String) (a : NewsArticle),
      (monitorNews pf news processed).picked = some a →
        hasProcessedNews processed a.url = false ∧
        a.url ∈ (monitorNews pf news processed).processed ∧
        (monitorNews pf news processed).nextState = .ANALYZING := by
    intro pf news processed a h
    cases pf with
    | none => simp [monitorNews] at h
    | some p =>
      have hout := monitorNews_pick_outcome p news processed a h
      have heq := monitorNews_picked_eq p news processed
      rw [h] at heq
      have hpred := List.find?_some heq.symm
      simp only [Bool.not_eq_eq_eq_not, Bool.not_true] at hpred
      refine ⟨by simpa using hpred, ?_, ?_⟩
      · rw [hout]; exact List.mem_cons_self _ _
      · rw [hout]
  refine ⟨hpick, ?_, monitorNews_picked_eq, ?_, ?_⟩
  · intro pf news processed u hu
    cases pf with
    | none => simpa [monitorNews] using hu
    | some p =>
      cases hp : (monitorNews (some p) news processed).picked with
      | none =>
        rw [monitorNews] at hp ⊢
        by_cases hn : news.isEmpty
        · simpa [hn] using hu
        · simp only [hn, if_false, Bool.false_eq_true] at hp ⊢
          by_cases hr : (filterRelevantNews news
              (p.holdings.map (fun h => h.ticker))).isEmpty
          · simpa [hr] using hu
          · simp only [hr, if_false, Bool.false_eq_true] at hp ⊢
            cases hfind : (sortByScoreDesc (filterRelevantNews news
                (p.holdings.map (fun h => h.ticker)))).find?
                  (fun a => !(hasProcessedNews processed a.url)) with
            | none => simpa [hfind] using hu
            | some b => simp [hfind] at hp
      | some b =>
        rw [monitorNews_pick_outcome p news processed b hp]
        exact List.mem_cons_of_mem _ hu
  · exact sortByScoreDesc_pairwise
  · intro pf pf2 news news2 processed processed2 a b h1 hsub h2 habs
    have ha := hpick pf news processed a h1
    have hb := hpick pf2 news2 processed2 b h2
    have hmem : a.url ∈ processed2 := hsub _ ha.2.1
    have : hasProcessedNews processed2 b.url = true := by
      rw [habs]
      simpa [hasProcessedNews, List.elem_iff] using hmem
    rw [hb.1] at this
    exact Bool.false_ne_true this

/-- Claim C6 witness: `C6_idempotent_dedup` at a two-article feed — the
higher-scored unprocessed article is picked and marked, and a second pass
whose processed set includes the first pass's marks cannot pick the same URL. -/
theorem C6_idempotent_dedup_witness :
    (hasProcessedNews ["u1"]
        (⟨"AAPL more", "u2", "AAPL stuff", some 0⟩ : NewsArticle).url = false ∧
      (⟨"AAPL more", "u2", "AAPL stuff", some 0⟩ : NewsArticle).url ∈
        (monitorNews (some ⟨[⟨"AAPL", 10, 80⟩], 1000, "moderate"⟩)
          [⟨"AAPL news", "u1", "AAPL content", some 1⟩,
           ⟨"AAPL more", "u2", "AAPL stuff", some 0⟩] ["u1"]).processed ∧
      (monitorNews (some ⟨[⟨"AAPL", 10, 80⟩], 1000, "moderate"⟩)
          [⟨"AAPL news", "u1", "AAPL content", some 1⟩,
           ⟨"AAPL more", "u2", "AAPL stuff", some 0⟩] ["u1"]).nextState
        = .ANALYZING) :=
  C6_idempotent_dedup.1 (some ⟨[⟨"AAPL", 10, 80⟩], 1000, "moderate"⟩)
    [⟨"AAPL news", "u1", "AAPL content", some 1⟩,
     ⟨"AAPL more", "u2", "AAPL stuff", some 0⟩] ["u1"]
    ⟨"AAPL more", "u2", "AAPL stuff", some 0⟩ (by decide)

/-- Claim C7: the run loop exits iff `isRunning` is false; an exception inside
a cycle body is routed through the catch clause, which logs it, emits an
`error` event and returns the machine to MONITORING without touching
`isRunning`, so a loop fed only failing cycles keeps running; only `stop()`
halts it, clearing `isRunning` and returning the state to IDLE. -/
theorem C7_error_loop_semantics :
    (∀ (s : OrchState) (body : OrchState → CycleOutcome),
      loopIter s body = none ↔ s.isRunning = false) ∧
    (∀ (s : OrchState) (body : OrchState → CycleOutcome) (m : String),
      s.isRunning = true → body s = .err m →
        loopIter s body = some (handleCycleError s m)) ∧
    (∀ (s : OrchState) (m : String),
      (handleCycleError s m).state = .MONITORING ∧
      (handleCycleError s m).isRunning = s.isRunning ∧
      (handleCycleError s m).emitted
        = s.emitted ++ [⟨.log, "Error in agent loop: " ++ m⟩, ⟨.error, m⟩,
            ⟨.log, "State transition"⟩, ⟨.stateChange, "stateChange"⟩]) ∧
    (∀ (s : OrchState) (bodies : List (OrchState → CycleOutcome)),
      (∀ b ∈ bodies, ∀ st, ∃ m, b st = .err m) →
      (runLoop s bodies).isRunning = s.isRunning ∧
      (bodies ≠ [] → s.isRunning = true → (runLoop s bodies).state = .MONITORING)) ∧
    (∀ s : OrchState, (stopAgent s).isRunning = false ∧ (stopAgent s).state = .IDLE ∧
      ∀ body, loopIter (stopAgent s) body = none) := by
  have herr : ∀ (s : OrchState) (m : String),
      (handleCycleError s m).state = .MONITORING ∧
      (handleCycleError s m).isRunning = s.isRunning ∧
      (handleCycleError s m).emitted
        = s.emitted ++ [⟨.log, "Error in agent loop: " ++ m⟩, ⟨.error, m⟩,
            ⟨.log, "State transition"⟩, ⟨.stateChange, "stateChange"⟩] := by
    intro s m
    refine ⟨rfl, rfl, ?_⟩
    simp [handleCycleError, setState, logEvent, emitEvent]
  refine ⟨?_, ?_, herr, ?_, ?_⟩
  · intro s body
    rw [loopIter]
    cases hrun : s.isRunning <;> simp [hrun]
  · intro s body m hrun hb
    rw [loopIter]
    simp [hrun, hb]
  · intro s bodies
    induction bodies generalizing s with
    | nil => intro _; exact ⟨rfl, fun habs _ => absurd rfl habs⟩
    | cons b rest ih =>
      intro hall
      cases hrun : s.isRunning with
      | false =>
        have : runLoop s (b :: rest) = s := by
          rw [runLoop, loopIter]
          simp [hrun]
        rw [this]
        exact ⟨hrun, fun _ habs => absurd habs (by simp)⟩
      | true =>
        obtain ⟨m, hm⟩ := hall b (List.mem_cons_self _ _) s
        have hstep : runLoop s (b :: rest) = runLoop (handleCycleError s m) rest := by
          rw [runLoop, loopIter]
          simp [hrun, hm]
        have hrest := ih (handleCycleError s m)
          (fun b2 hb2 => hall b2 (List.mem_cons_of_mem _ hb2))
        rw [hstep]
        constructor
        · rw [hrest.1, (herr s m).2.1, hrun]
        · intro _ _
          cases rest with
          | nil => rw [runLoop]; exact (herr s m).1
          | cons b2 rest2 =>
            exact hrest.2 (by simp) (by rw [(herr s m).2.1, hrun])
  · intro s
    have hrun : (stopAgent s).isRunning = false := by
      simp [stopAgent, logEvent, emitEvent, setState]
    have hstate : (stopAgent s).state = .IDLE := by
      simp [stopAgent, logEvent, emitEvent, setState]
    refine ⟨hrun, hstate, ?_⟩
    intro body
    rw [loopIter]
    simp [hrun]

/-- Claim C7 witness: `C7_error_loop_semantics` at a concrete running state
with two consecutively failing cycle bodies — the loop is still running and
parked in MONITORING afterwards. -/
theorem C7_error_loop_semantics_witness :
    (runLoop ⟨.EXECUTING, true, [], []⟩
        [fun _ => .err "boom", fun _ => .err "again"]).isRunning
      = (⟨.EXECUTING, true, [], []⟩ : OrchState).isRunning ∧
    (runLoop ⟨.EXECUTING, true, [], []⟩
        [fun _ => .err "boom", fun _ => .err "again"]).state = .MONITORING := by
  have h := C7_error_loop_semantics.2.2.2.1 ⟨.EXECUTING, true, [], []⟩
    [fun _ => .err "boom", fun _ => .err "again"]
    (by
      intro b hb st
      rw [List.mem_cons, List.mem_singleton] at hb
      cases hb with
      | inl h1 => exact ⟨"boom", by rw [h1]⟩
      | inr h1 => exact ⟨"again", by rw [h1]⟩)
  exact ⟨h.1, h.2 (by simp) rfl⟩

theorem redisGetTrades_eq_take (store : List Trade) (n : ℕ) (h : 1 ≤ n) :
    redisGetTrades store n = store.take n := by
  rw [redisGetTrades, lrange]
  simp only [show ¬ ((0 : ℤ) < 0) from by omega, if_false]
  have he0 : ¬ ((n : ℤ) - 1 < 0) := by omega
  simp only [he0, if_false]
  cases store with
  | nil =>
    simp
  | cons t rest =>
    have hlen : (1 : ℤ) ≤ (t :: rest).length := by
      simp only [List.length_cons]
      omega
    have hnot : ¬ ((0 : ℤ) > min ((n : ℤ) - 1) ((t :: rest).length - 1)) := by
      omega
    simp only [hnot, if_false, Int.toNat_zero, List.drop_zero]
    have harg : (min ((n : ℤ) - 1) ((t :: rest).length - 1) - 0 + 1).toNat
        = min n (t :: rest).length := by
      omega
    rw [harg, List.take_eq_take]
    omega

theorem hread_halloc_old {α : Type} (h : Heap α) (v : α) (r : ℕ)
    (hr : r < h.cells.length) : hread (halloc h v).1 r = hread h r := by
  simp [hread, halloc, List.getElem?_append, hr]

theorem hread_halloc_new {α : Type} (h : Heap α) (v : α) :
    hread (halloc h v).1 (halloc h v).2 = some v := by
  simp [hread, halloc, List.getElem?_concat_length]

theorem hread_hwrite_ne {α : Type} (h : Heap α) (r w : ℕ) (v : α) (hne : w ≠ r) :
    hread (hwrite h w v) r = hread h r := by
  simp [hread, hwrite, List.getElem?_set_ne hne]

/-- Claim C8 counterexample: with a $10000 all-cash portfolio and an empty
trade history, a passing buy analysis for $50 produces a decision with
`shares = 0`, yet the risk gates (which test `amount_usd`, not `shares`) all
pass and the trade executes: cash drops to $9950, a zero-share holding is
created, and a trade record is appended — refuting "the downstream gates fail
it naturally — it does not result in an executed trade or any portfolio
mutation". -/
theorem C8_zero_share_counterexample :
    (makeDecision ⟨⟨9, .bullish, .buy, 9 / 10, 50, "r"⟩, "TSLA",
        ⟨"t", "u", "c", none⟩⟩).shares = 0 ∧
    (backendCheckRisk ⟨[], 10000, "moderate"⟩ [] 1000000 .buy "TSLA" 50).passed
      = true ∧
    riskThenExecute ⟨[], 10000, "moderate"⟩ [] 1000000
        (makeDecision ⟨⟨9, .bullish, .buy, 9 / 10, 50, "r"⟩, "TSLA",
          ⟨"t", "u", "c", none⟩⟩)
      = (⟨[⟨"TSLA", 0, 100⟩], 9950, "moderate"⟩,
          [⟨"TSLA", .buy, 0, 100, 1000000⟩]) ∧
    ((⟨[⟨"TSLA", 0, 100⟩], 9950, "moderate"⟩ : Portfolio).cash_balance
      ≠ (⟨[], 10000, "moderate"⟩ : Portfolio).cash_balance) := by
  have hd : makeDecision ⟨⟨9, .bullish, .buy, 9 / 10, 50, "r"⟩, "TSLA",
      ⟨"t", "u", "c", none⟩⟩ = ⟨.buy, "TSLA", 0, 50, "r"⟩ := by
    simp only [makeDecision, mockPrice, TradingDecision.mk.injEq]
    norm_num
  have hrisk : (backendCheckRisk ⟨[], 10000, "moderate"⟩ [] 1000000 .buy "TSLA" 50).passed
      = true := by
    simp only [backendCheckRisk, getHolding, holdingsValue, redisGetTrades, lrange,
      List.find?_nil, List.foldl_nil, List.length_nil]
    norm_num
  have hexec : backendExecuteTrade ⟨[], 10000, "moderate"⟩ [] 1000000
      (⟨.buy, "TSLA", 0, 50, "r"⟩ : TradingDecision)
      = some (⟨[⟨"TSLA", 0, 100⟩], 9950, "moderate"⟩,
          [⟨"TSLA", .buy, 0, 100, 1000000⟩]) := by
    simp only [backendExecuteTrade, getHolding, List.find?_nil, redisAddTrade, mockPrice]
    norm_num
  refine ⟨by rw [hd], hrisk, ?_, by norm_num⟩
  rw [hd, riskThenExecute]
  simp only [hrisk, if_true, hexec]

/-- Claim C8 amended: DECIDING always computes
`shares = floor(amount_usd / reference price)` and a zero-share decision is
permitted (any `0 <= amount_usd < price` yields one); but the downstream gates
evaluate `amount_usd` rather than `shares`, so a zero-share decision is not
rejected by them: one that passes the risk check executes, changing
`cash_balance` by `amount_usd`. -/
theorem C8_zero_share_amended :
    (∀ (ctx : AnalysisCtx),
      (makeDecision ctx).shares = ⌊ctx.analysis.amount_usd / mockPrice⌋ ∧
      (makeDecision ctx).amount_usd = ctx.analysis.amount_usd) ∧
    (∀ (ctx : AnalysisCtx),
      0 ≤ ctx.analysis.amount_usd → ctx.analysis.amount_usd < mockPrice →
        (makeDecision ctx).shares = 0) ∧
    ((backendCheckRisk ⟨[], 10000, "moderate"⟩ [] 1000000 .buy "TSLA" 50).passed
        = true ∧
      (riskThenExecute ⟨[], 10000, "moderate"⟩ [] 1000000
          (⟨.buy, "TSLA", 0, 50, "r"⟩ : TradingDecision)).1.cash_balance
        = 10000 - 50) := by
  refine ⟨fun ctx => ⟨rfl, rfl⟩, ?_, ?_⟩
  · intro ctx h0 hlt
    rw [makeDecision]
    simp only
    rw [Int.floor_eq_zero_iff]
    constructor
    · exact div_nonneg h0 (by rw [mockPrice]; norm_num)
    · rw [div_lt_one (by rw [mockPrice]; norm_num)]
      exact hlt
  · have hrisk : (backendCheckRisk ⟨[], 10000, "moderate"⟩ [] 1000000 .buy
        "TSLA" 50).passed = true := by
      simp only [backendCheckRisk, getHolding, holdingsValue, redisGetTrades, lrange,
        List.find?_nil, List.foldl_nil, List.length_nil]
      norm_num
    refine ⟨hrisk, ?_⟩
    rw [riskThenExecute]
    simp only [hrisk, if_true]
    have hexec : backendExecuteTrade ⟨[], 10000, "moderate"⟩ [] 1000000
        (⟨.buy, "TSLA", 0, 50, "r"⟩ : TradingDecision)
        = some (⟨[⟨"TSLA", 0, 100⟩], 9950, "moderate"⟩,
            [⟨"TSLA", .buy, 0, 100, 1000000⟩]) := by
      simp only [backendExecuteTrade, getHolding, List.find?_nil, redisAddTrade,
        mockPrice]
      norm_num
    rw [hexec]
    norm_num

/-- Claim C8 amended witness: `C8_zero_share_amended` at the $50 analysis —
its decision has zero shares, with the bounds discharged concretely. -/
theorem C8_zero_share_amended_witness :
    (makeDecision ⟨⟨9, .bullish, .buy, 9 / 10, 50, "r"⟩, "TSLA",
        ⟨"t", "u", "c", none⟩⟩).shares = 0 :=
  C8_zero_share_amended.2.1 ⟨⟨9, .bullish, .buy, 9 / 10, 50, "r"⟩, "TSLA",
      ⟨"t", "u", "c", none⟩⟩ (by norm_num) (by rw [mockPrice]; norm_num)

/-- Claim C9 counterexample: after buying "A" and then "B" through
`PortfolioService.executeTrade`, `getTradeHistory(2)` returns the trades in
insertion order — the trade appended last ("B") appears last, not first,
refuting "most-recent-first" for this per-tenant history read. -/
theorem C9_history_order_counterexample :
    svcGetTradeHistory
        (svcExecuteTrade
          (svcExecuteTrade ⟨⟨[], 1000, "moderate"⟩, []⟩ "A" .buy 1 1 1).1
          "B" .buy 1 1 2).1 (some 2)
      = [⟨"A", .buy, 1, 1, 1⟩, ⟨"B", .buy, 1, 1, 2⟩] ∧
    (svcGetTradeHistory
        (svcExecuteTrade
          (svcExecuteTrade ⟨⟨[], 1000, "moderate"⟩, []⟩ "A" .buy 1 1 1).1
          "B" .buy 1 1 2).1 (some 2)).head? ≠ some ⟨"B", .buy, 1, 1, 2⟩ := by
  have h1 : svcExecuteTrade ⟨⟨[], 1000, "moderate"⟩, []⟩ "A" .buy 1 1 1
      = (⟨⟨[⟨"A", 1, 1⟩], 999, "moderate"⟩, [⟨"A", .buy, 1, 1, 1⟩]⟩, true) := by
    simp only [svcExecuteTrade, canAffordTrade, getHolding, List.find?_nil]
    norm_num
  have h2 : svcExecuteTrade (⟨⟨[⟨"A", 1, 1⟩], 999, "moderate"⟩,
        [⟨"A", .buy, 1, 1, 1⟩]⟩ : SvcState) "B" .buy 1 1 2
      = (⟨⟨[⟨"A", 1, 1⟩, ⟨"B", 1, 1⟩], 998, "moderate"⟩,
          [⟨"A", .buy, 1, 1, 1⟩, ⟨"B", .buy, 1, 1, 2⟩]⟩, true) := by
    have hfind : getHolding (⟨[⟨"A", 1, 1⟩], 999, "moderate"⟩ : Portfolio) "B"
        = none := by simp [getHolding]
    simp only [svcExecuteTrade, canAffordTrade, hfind]
    norm_num
  rw [h1, h2]
  constructor
  · simp [svcGetTradeHistory]
  · simp [svcGetTradeHistory]

/-- Claim C9 amended: the Redis-backed trade reads do return at most `n`
most-recent-first records for every `n >= 1` (the trade appended last appears
first), but `n = 0` returns the entire retained list (Redis LRANGE treats the
stop index `-1` as the last element), and the in-memory
`PortfolioService.getTradeHistory` returns the last `n` trades in insertion
order, most recent last. -/
theorem C9_history_reads_amended :
    (∀ (store : List Trade) (n : ℕ), 1 ≤ n →
      (redisGetTrades store n).length ≤ n) ∧
    (∀ (store : List Trade) (n : ℕ), 1 ≤ n →
      redisGetTrades store n = store.take n) ∧
    (∀ (store : List Trade) (t : Trade) (now : ℤ) (n : ℕ), 1 ≤ n →
      (redisGetTrades (redisAddTrade store t now) n).head?
        = some { t with timestamp := now }) ∧
    (∀ store : List Trade, redisGetTrades store 0 = store) ∧
    (∀ (s : SvcState) (l : ℕ), 1 ≤ l →
      svcGetTradeHistory s (some l)
          = s.tradeHistory.drop (s.tradeHistory.length - l) ∧
        (svcGetTradeHistory s (some l)).length ≤ l) := by
  refine ⟨?_, redisGetTrades_eq_take, ?_, ?_, ?_⟩
  · intro store n h
    rw [redisGetTrades_eq_take store n h]
    simp only [List.length_take]
    omega
  · intro store t now n h
    rw [redisGetTrades_eq_take _ n h, redisAddTrade]
    rw [List.head?_take, List.head?_take]
    simp only [show n ≠ 0 from by omega, show (1000 : ℕ) ≠ 0 from by omega,
      if_false, List.head?_cons]
  · intro store
    rw [redisGetTrades, lrange]
    simp only [Nat.cast_zero, show ¬ ((0 : ℤ) < 0) from by omega, if_false,
      show ((0 : ℤ) - 1 < 0) from by omega, if_true]
    cases store with
    | nil => decide
    | cons t rest =>
      have hnot : ¬ ((0 : ℤ) > (((t :: rest).length : ℤ) + (0 - 1))
          ⊓ (((t :: rest).length : ℤ) - 1)) := by
        have h1 : (1 : ℤ) ≤ ((t :: rest).length : ℤ) := by
          simp only [List.length_cons]
          omega
        omega
      rw [if_neg hnot]
      rw [Int.toNat_zero, List.drop_zero]
      have harg : (((((t :: rest).length : ℤ) + (0 - 1))
          ⊓ (((t :: rest).length : ℤ) - 1)) - 0 + 1).toNat
          = (t :: rest).length := by
        simp only [List.length_cons]
        omega
      rw [harg, List.take_length]
  · intro s l h
    have hne : ¬ l = 0 := by omega
    constructor
    · simp [svcGetTradeHistory, hne]
    · simp only [svcGetTradeHistory, hne, if_false, List.length_drop]
      omega

/-- Claim C9 amended witness: `C9_history_reads_amended` at a two-trade store
with limit 1 — the Redis read returns exactly the most recently pushed trade. -/
theorem C9_history_reads_amended_witness :
    (redisGetTrades (redisAddTrade [⟨"A", .buy, 1, 1, 1⟩] ⟨"B", .sell, 2, 1, 0⟩ 5) 1).head?
      = some ({ (⟨"B", .sell, 2, 1, 0⟩ : Trade) with timestamp := 5 }) :=
  C9_history_reads_amended.2.2.1 [⟨"A", .buy, 1, 1, 1⟩] ⟨"B", .sell, 2, 1, 0⟩ 5 1
    (by omega)

/-- Claim C10: the public read accessors hand out copies — `getEvents()`,
`getPortfolio()` and `getHoldings()` allocate a fresh reference holding the
same contents, distinct from the internal one, so any overwrite through the
returned reference (append, removal, reordering, or reassigning the returned
object's top-level fields) leaves the internal buffer, portfolio object and
holdings array unchanged. -/
theorem C10_accessors_return_copies :
    (∀ (h : Heap (List AgentEvent)) (internal : ℕ), internal < h.cells.length →
      (getEventsCopy h internal).2 ≠ internal ∧
      hread (getEventsCopy h internal).1 internal = hread h internal ∧
      hread (getEventsCopy h internal).1 (getEventsCopy h internal).2
        = some ((hread h internal).getD []) ∧
      ∀ v, hread (hwrite (getEventsCopy h internal).1 (getEventsCopy h internal).2 v)
          internal = hread h internal) ∧
    (∀ (h : Heap PortfolioObj) (internal : ℕ), internal < h.cells.length →
      (getPortfolioCopy h internal).2 ≠ internal ∧
      hread (getPortfolioCopy h internal).1 internal = hread h internal ∧
      hread (getPortfolioCopy h internal).1 (getPortfolioCopy h internal).2
        = some ((hread h internal).getD ⟨0, "", 0⟩) ∧
      ∀ v, hread (hwrite (getPortfolioCopy h internal).1 (getPortfolioCopy h internal).2 v)
          internal = hread h internal) ∧
    (∀ (h : Heap (List Holding)) (internal : ℕ), internal < h.cells.length →
      (getHoldingsCopy h internal).2 ≠ internal ∧
      hread (getHoldingsCopy h internal).1 internal = hread h internal ∧
      hread (getHoldingsCopy h internal).1 (getHoldingsCopy h internal).2
        = some ((hread h internal).getD []) ∧
      ∀ v, hread (hwrite (getHoldingsCopy h internal).1 (getHoldingsCopy h internal).2 v)
          internal = hread h internal) := by
  have hgen : ∀ {α : Type} (h : Heap α) (d : α) (internal : ℕ),
      internal < h.cells.length →
      (halloc h ((hread h internal).getD d)).2 ≠ internal ∧
      hread (halloc h ((hread h internal).getD d)).1 internal = hread h internal ∧
      hread (halloc h ((hread h internal).getD d)).1
          (halloc h ((hread h internal).getD d)).2
        = some ((hread h internal).getD d) ∧
      ∀ v, hread (hwrite (halloc h ((hread h internal).getD d)).1
          (halloc h ((hread h internal).getD d)).2 v) internal = hread h internal := by
    intro α h d internal hlt
    have hne : (halloc h ((hread h internal).getD d)).2 ≠ internal := by
      simp only [halloc]
      omega
    refine ⟨hne, hread_halloc_old h _ internal hlt, hread_halloc_new h _, ?_⟩
    intro v
    rw [hread_hwrite_ne _ _ _ _ hne, hread_halloc_old h _ internal hlt]
  exact ⟨fun h internal hlt => hgen h [] internal hlt,
    fun h internal hlt => hgen h ⟨0, "", 0⟩ internal hlt,
    fun h internal hlt => hgen h [] internal hlt⟩

/-- Claim C10 witness: `C10_accessors_return_copies` at a one-cell heap — the
copy handed out by `getEvents()` is a distinct reference and overwriting it
leaves the internal buffer readable unchanged. -/
theorem C10_accessors_return_copies_witness :
    (getEventsCopy ⟨[[⟨.log, "x"⟩]]⟩ 0).2 ≠ 0 ∧
    hread (getEventsCopy ⟨[[⟨.log, "x"⟩]]⟩ 0).1 0 = hread ⟨[[⟨.log, "x"⟩]]⟩ 0 ∧
    hread (getEventsCopy ⟨[[⟨.log, "x"⟩]]⟩ 0).1 (getEventsCopy ⟨[[⟨.log, "x"⟩]]⟩ 0).2
      = some ((hread ⟨[[⟨.log, "x"⟩]]⟩ 0).getD []) ∧
    ∀ v, hread (hwrite (getEventsCopy ⟨[[⟨.log, "x"⟩]]⟩ 0).1
        (getEventsCopy ⟨[[⟨.log, "x"⟩]]⟩ 0).2 v) 0 = hread ⟨[[⟨.log, "x"⟩]]⟩ 0 :=
  C10_accessors_return_copies.1 ⟨[[⟨.log, "x"⟩]]⟩ 0 (by simp)

end Hound
